import Mathlib

/-!
Verification development for the PyProf analytical kernel.

Embeds, from `src/pyprof/prof/reduction.py`, the `Mean`, `Sum` and `Norm`
calculator classes (constructors and the `elems`/`bytes`/`flops` methods),
and, from `src/pyprof/nvtx/nvmarker.py`, the record producer `argMarker`
together with the textual serialization of the marker dictionary
(Python `str(dict)`) and a structural model of the consumer-side literal
evaluation used to decode it.

Machine integers are modelled as `Nat`/`Int` (Python integers are unbounded,
so no wrap-around is involved).  Python `dict` descriptors are modelled by
the inductive `ArgDesc`, whose constructors mirror the five descriptor
shapes the producer emits.  Fallible Python code (assertions, `KeyError`,
`IndexError`) is modelled with `Except`.  Finite floating-point values are
outside the embedding; the special values `inf`, `-inf` and `nan` are
embedded symbolically, exactly as the producer tokenizes them.
-/

namespace PyProf

/-- Modelled from the spec: `utility.py` (`Utility.numElems`) is not under
`src/`; the spec defines `elements()` as the product of the shape dimensions,
with the empty shape denoting a scalar of element count 1. -/
def Utility.numElems (shape : List Nat) : Nat :=
  shape.foldl (fun a b => a * b) 1

/-- Modelled from the spec: `utility.py` (`Utility.typeToBytes`) is not under
`src/`; the spec gives a dtype-name to byte-width table (4 for 32-bit float,
2 for 16-bit float, 8 for 64-bit integer, 1 for boolean) and requires that a
dtype absent from the table be surfaced, never defaulted. -/
def Utility.typeToBytes : String → Option Nat
  | "float32" => some 4
  | "float16" => some 2
  | "int64" => some 8
  | "bool" => some 1
  | _ => none

/-- A scalar value as it can appear in a captured descriptor: a Python int,
bool, str or None.  Finite floats are outside the embedding; the special
floats are tokenized to the strings "inf", "-inf", "nan" by the producer. -/
inductive ScalarVal
  | vint (n : Int)
  | vbool (b : Bool)
  | vstr (s : String)
  | vnone
  deriving DecidableEq

/-- An argument descriptor, one element of the marker's `args` list, as built
by `argMarker` in `nvmarker.py` (functions `tensor`, `ndarray`, `seq`,
`scalar`): a dict with keys `name`, `type`, and then either `shape`+`dtype`
(tensor/ndarray) or `value` (list/tuple/scalar). -/
inductive ArgDesc
  | tensor (name : String) (shape : List Nat) (dtype : String)
  | ndarray (name : String) (shape : List Nat) (dtype : String)
  | seqList (name : String) (value : List ScalarVal)
  | seqTuple (name : String) (value : List ScalarVal)
  | scalar (name : String) (ty : String) (value : ScalarVal)
  deriving DecidableEq

/-- The `name` entry of a descriptor (empty string means positional). -/
def ArgDesc.name : ArgDesc → String
  | .tensor n _ _ => n
  | .ndarray n _ _ => n
  | .seqList n _ => n
  | .seqTuple n _ => n
  | .scalar n _ _ => n

/-- Python `i['shape']` access: present exactly on tensor/ndarray descriptors. -/
def ArgDesc.shapeF : ArgDesc → Option (List Nat)
  | .tensor _ s _ => some s
  | .ndarray _ s _ => some s
  | _ => none

/-- Python `i['dtype']` access: present exactly on tensor/ndarray descriptors. -/
def ArgDesc.dtypeF : ArgDesc → Option String
  | .tensor _ _ t => some t
  | .ndarray _ _ t => some t
  | _ => none

/-- Python `'value' in i`: true for list/tuple/scalar descriptors. -/
def ArgDesc.hasValue : ArgDesc → Bool
  | .seqList _ _ => true
  | .seqTuple _ _ => true
  | .scalar _ _ _ => true
  | _ => false

/-- The `type` entry of a descriptor, always present. -/
def ArgDesc.typeField : ArgDesc → String
  | .tensor _ _ _ => "tensor"
  | .ndarray _ _ _ => "ndarray"
  | .seqList _ _ => "list"
  | .seqTuple _ _ => "tuple"
  | .scalar _ ty _ => ty

/-- The decoded marker dictionary: keys `mod`, `op`, `args` in insertion
order, as built at nvmarker.py lines 263-266 and read back at
reduction.py lines 27-29. -/
structure Marker where
  mod : String
  op : String
  args : List ArgDesc
  deriving DecidableEq

/-- Failure modes of the Python constructors: the module/operator assertions
(the spec's ContractViolation), other assertions, `list[0]` on an empty list
(IndexError), and a missing dict key (KeyError). -/
inductive ProfError
  | contractViolation
  | assertionError
  | indexError
  | keyError
  deriving DecidableEq

/-- State of a constructed `Mean` calculator (reduction.py lines 23-55). -/
structure Mean where
  marker : Marker
  mod_ : String
  op_ : String
  args : List ArgDesc
  shape : List Nat
  type : String
  dir : String
  sub : Nat
  deriving DecidableEq

/-- `Mean.__init__` (reduction.py lines 25-55): asserts the module is torch or
Tensor and the operator is "mean", filters out named parameters, asserts at
most two remain, takes the first; a descriptor with a shape gives shape and
dtype, otherwise `value` must be present and the shape is `(1,)` with the
descriptor's `type` entry as dtype. -/
def Mean.make (m : Marker) (dir : String) (sub : Nat) : Except ProfError Mean :=
  if m.mod = "torch" ∨ m.mod = "Tensor" then
    if m.op = "mean" then
      let pos := m.args.filter (fun a => a.name == "")
      if pos.length ≤ 2 then
        match pos with
        | [] => .error .indexError
        | i :: _ =>
          match i.shapeF with
          | some s =>
            match i.dtypeF with
            | some t => .ok ⟨m, m.mod, m.op, m.args, s, t, dir, sub⟩
            | none => .error .keyError
          | none =>
            if i.hasValue then .ok ⟨m, m.mod, m.op, m.args, [1], i.typeField, dir, sub⟩
            else .error .assertionError
      else .error .assertionError
    else .error .contractViolation
  else .error .contractViolation

/-- `Mean.elems` (reduction.py lines 70-71). -/
def Mean.elems (c : Mean) : Nat := Utility.numElems c.shape

/-- `Mean.bytes` (reduction.py lines 73-77): the byte-width table is consulted
only on the `sub == 0` branch. -/
def Mean.bytes (c : Mean) : Option Nat :=
  if c.sub = 0 then (Utility.typeToBytes c.type).map (fun w => c.elems * w)
  else some 0

/-- `Mean.flops` (reduction.py lines 79-83). -/
def Mean.flops (c : Mean) : Nat :=
  if c.sub = 0 then c.elems + 1 else 0

/-- State of a constructed `Sum` calculator (reduction.py lines 86-111). -/
structure Sum where
  marker : Marker
  mod_ : String
  op_ : String
  args : List ArgDesc
  shape : List Nat
  type : String
  sub : Nat
  deriving DecidableEq

/-- Operand selection in `Sum.__init__` (reduction.py lines 103-107): the
first argument if it is positional, otherwise the first argument named
"input"; `none` models the IndexError of `list(filter(...))[0]` on an empty
filter result. -/
def sumSelect (args : List ArgDesc) : Option ArgDesc :=
  match args with
  | [] => none
  | a :: _ =>
    if a.name == "" then some a
    else (args.filter (fun x => x.name == "input")).head?

/-- `Sum.__init__` (reduction.py lines 88-111): asserts module and operator,
asserts at least one argument, selects the operand, and reads its `shape`
and `dtype` entries. -/
def Sum.make (m : Marker) (sub : Nat) : Except ProfError Sum :=
  if m.mod = "torch" ∨ m.mod = "Tensor" then
    if m.op = "sum" then
      if 1 ≤ m.args.length then
        match sumSelect m.args with
        | none => .error .indexError
        | some i =>
          match i.shapeF with
          | none => .error .keyError
          | some s =>
            match i.dtypeF with
            | none => .error .keyError
            | some t => .ok ⟨m, m.mod, m.op, m.args, s, t, sub⟩
      else .error .assertionError
    else .error .contractViolation
  else .error .contractViolation

/-- `Sum.elems` (reduction.py lines 126-127). -/
def Sum.elems (c : Sum) : Nat := Utility.numElems c.shape

/-- `Sum.flops` (reduction.py lines 129-131): the element count, with no
`sub` test (the source notes the formula is an approximation). -/
def Sum.flops (c : Sum) : Nat := c.elems

/-- `Sum.bytes` (reduction.py lines 133-138): `b` is computed (the byte-width
table consulted) before the `sub` test, then suppressed to 0 for nested
invocations. -/
def Sum.bytes (c : Sum) : Option Nat :=
  (Utility.typeToBytes c.type).map (fun w => if c.sub = 0 then c.elems * w else 0)

/-- State of a constructed `Norm` calculator (reduction.py lines 141-160). -/
structure Norm where
  marker : Marker
  mod_ : String
  op_ : String
  args : List ArgDesc
  shape : List Nat
  type : String
  sub : Nat
  deriving DecidableEq

/-- `Norm.__init__` (reduction.py lines 143-160): asserts module and operator,
takes `args[0]` unconditionally (no name filtering, no scalar fallback) and
reads its `shape` and `dtype` entries. -/
def Norm.make (m : Marker) (sub : Nat) : Except ProfError Norm :=
  if m.mod = "torch" ∨ m.mod = "Tensor" then
    if m.op = "norm" then
      match m.args with
      | [] => .error .indexError
      | i :: _ =>
        match i.shapeF with
        | none => .error .keyError
        | some s =>
          match i.dtypeF with
          | none => .error .keyError
          | some t => .ok ⟨m, m.mod, m.op, m.args, s, t, sub⟩
    else .error .contractViolation
  else .error .contractViolation

/-- `Norm.elems` (reduction.py lines 166-167). -/
def Norm.elems (c : Norm) : Nat := Utility.numElems c.shape

/-- `Norm.bytes` (reduction.py lines 169-174): `b` is computed before the
`sub` test. -/
def Norm.bytes (c : Norm) : Option Nat :=
  (Utility.typeToBytes c.type).map (fun w => if c.sub = 0 then c.elems * w else 0)

/-- `Norm.flops` (reduction.py lines 176-182). -/
def Norm.flops (c : Norm) : Nat :=
  if c.sub = 0 then 2 * c.elems + 1 else 0

/-- A runtime scalar value on the producer side, as classified by `isscalar`
in `argMarker` (nvmarker.py line 232-233: int, float, bool, None, str) plus
the result of `Tensor.item()` on a zero-dimensional tensor.  Of the floats,
only the special values are embedded (finite floats are outside the
embedding); they are exactly the values the special-token handling at
nvmarker.py lines 221-227 is about. -/
inductive RtScalar
  | rint (n : Int)
  | rbool (b : Bool)
  | rstr (s : String)
  | rnone
  | rinf
  | rneginf
  | rnan

/-- Python `type(arg).__name__` on an embedded runtime scalar. -/
def RtScalar.pyTypeName : RtScalar → String
  | .rint _ => "int"
  | .rbool _ => "bool"
  | .rstr _ => "str"
  | .rnone => "NoneType"
  | .rinf => "float"
  | .rneginf => "float"
  | .rnan => "float"

/-- The `scalar` helper of `argMarker` (nvmarker.py lines 217-230): builds a
descriptor with the argument's name and type name; the values +inf, -inf and
nan are stored as the string tokens "inf", "-inf", "nan", every other value
is stored as is. -/
def scalarDesc (arg : RtScalar) (name : String) : ArgDesc :=
  ArgDesc.scalar name arg.pyTypeName
    (match arg with
     | .rinf => ScalarVal.vstr "inf"
     | .rneginf => ScalarVal.vstr "-inf"
     | .rnan => ScalarVal.vstr "nan"
     | .rint n => ScalarVal.vint n
     | .rbool b => ScalarVal.vbool b
     | .rstr s => ScalarVal.vstr s
     | .rnone => ScalarVal.vnone)

/-- A runtime argument on the producer side, covering the cases dispatched by
`foo` in `argMarker` (nvmarker.py lines 238-254): a tensor (with the value
`item()` would return, used when its dimension is zero), a numpy array, a
scalar, a list/tuple whose first element is a scalar (stored whole by `seq`),
and a list/tuple of non-scalars (recursed into element-wise).  The Boolean
records whether the Python sequence was a list or a tuple. -/
inductive RtArg
  | rtensor (shape : List Nat) (item : RtScalar) (dtype : String)
  | rndarray (shape : List Nat) (dtype : String)
  | rscalar (v : RtScalar)
  | rseqScalars (isList : Bool) (xs : List ScalarVal)
  | rseqArgs (isList : Bool) (xs : List RtArg)

/-- The `seq` helper of `argMarker` (nvmarker.py lines 202-215): a list is
stored with type "list", a tuple with type "tuple". -/
def seqDesc (isList : Bool) (name : String) (xs : List ScalarVal) : ArgDesc :=
  if isList then ArgDesc.seqList name xs else ArgDesc.seqTuple name xs

mutual

/-- Dispatch of `foo` in `argMarker` on one argument (nvmarker.py lines
240-254): a zero-dimensional tensor goes through `scalar(arg.item(), name)`,
a tensor through `tensor`, a numpy array through `ndarray`, a scalar through
`scalar`, an empty sequence or a sequence of scalars through `seq`, and a
sequence of non-scalars is recursed into. -/
def fooArg : RtArg → String → List ArgDesc
  | RtArg.rtensor shape item dtype, name =>
    if shape.length = 0 then [scalarDesc item name]
    else [ArgDesc.tensor name shape dtype]
  | RtArg.rndarray shape dtype, name => [ArgDesc.ndarray name shape dtype]
  | RtArg.rscalar v, name => [scalarDesc v name]
  | RtArg.rseqScalars isList xs, name => [seqDesc isList name xs]
  | RtArg.rseqArgs isList xs, name =>
    match xs with
    | [] => [seqDesc isList name []]
    | _ :: _ => fooList xs name

/-- Iteration of `foo` in `argMarker` over a sequence of arguments
(nvmarker.py lines 238-254), appending the produced descriptors in order. -/
def fooList : List RtArg → String → List ArgDesc
  | [], _ => []
  | a :: rest, name => fooArg a name ++ fooList rest name

end

/-- `argMarker` (nvmarker.py lines 183-272): builds the marker dictionary
with `mod`, `op` and `args` keys, where `args` collects the descriptors of
the positional arguments (with empty name) followed by those of the keyword
arguments (with the keyword as name, each passed to `foo` as a one-element
tuple). -/
def argMarker (mod op : String) (args : List RtArg)
    (kwargs : List (String × RtArg)) : Marker :=
  { mod := mod, op := op,
    args := fooList args "" ++
      kwargs.foldl (fun acc kv => acc ++ fooArg kv.2 kv.1) [] }

/-- The apostrophe character, Python's default string quote in `str(dict)`. -/
def quoteC : Char := Char.ofNat 39

/-- The backslash character (excluded from embeddable strings, since Python
`repr` would escape it). -/
def backslashC : Char := Char.ofNat 92

/-- The opening brace character. -/
def lbrace : Char := Char.ofNat 123

/-- The closing brace character. -/
def rbrace : Char := Char.ofNat 125

/-- The decimal digit character for `n < 10`. -/
def digitChar (n : Nat) : Char := Char.ofNat (48 + n)

/-- Decimal rendering of a natural number, as Python `str`/`repr` writes it. -/
def natChars (n : Nat) : List Char :=
  if _h : n < 10 then [digitChar n]
  else natChars (n / 10) ++ [digitChar (n % 10)]
termination_by n
decreasing_by exact Nat.div_lt_self (by omega) (by omega)

/-- Decimal rendering of an integer, as Python `repr` writes it. -/
def intChars : Int → List Char
  | Int.ofNat n => natChars n
  | Int.negSucc n => '-' :: natChars (n + 1)

/-- Python `repr` of a string without quotes or backslashes: the text between
apostrophes. -/
def renderStrC (s : String) : List Char :=
  quoteC :: s.data ++ [quoteC]

/-- A quoted dictionary key followed by Python's `': '` separator. -/
def qkey (k : String) : List Char :=
  quoteC :: k.data ++ [quoteC, ':', ' ']

/-- Python's `', '` item separator. -/
def commaSp : List Char := [',', ' ']

/-- Python `repr` of an embedded scalar value. -/
def renderScalarVal : ScalarVal → List Char
  | ScalarVal.vint n => intChars n
  | ScalarVal.vbool true => 'T' :: 'r' :: 'u' :: 'e' :: []
  | ScalarVal.vbool false => 'F' :: 'a' :: 'l' :: 's' :: 'e' :: []
  | ScalarVal.vstr s => renderStrC s
  | ScalarVal.vnone => 'N' :: 'o' :: 'n' :: 'e' :: []

/-- The `", x"` continuation of a tuple or list of naturals. -/
def renderSepNats : List Nat → List Char
  | [] => []
  | n :: ns => ',' :: ' ' :: (natChars n ++ renderSepNats ns)

/-- Python `repr` of a tuple of naturals: `()`, `(4,)`, `(4, 8)`. -/
def renderNatTuple : List Nat → List Char
  | [] => ['(', ')']
  | [n] => '(' :: (natChars n ++ [',', ')'])
  | n :: ns => '(' :: (natChars n ++ renderSepNats ns ++ [')'])

/-- The `", x"` continuation of a sequence of scalar values. -/
def renderSepVals : List ScalarVal → List Char
  | [] => []
  | v :: vs => ',' :: ' ' :: (renderScalarVal v ++ renderSepVals vs)

/-- Python `repr` of a list of scalar values: `[]`, `[1, 2]`. -/
def renderValList : List ScalarVal → List Char
  | [] => ['[', ']']
  | v :: vs => '[' :: (renderScalarVal v ++ renderSepVals vs ++ [']'])

/-- Python `repr` of a tuple of scalar values: `()`, `(1,)`, `(1, 2)`. -/
def renderValTuple : List ScalarVal → List Char
  | [] => ['(', ')']
  | [v] => '(' :: (renderScalarVal v ++ [',', ')'])
  | v :: vs => '(' :: (renderScalarVal v ++ renderSepVals vs ++ [')'])

/-- Python `str` of one argument-descriptor dictionary, with its keys in the
insertion order of the producer's helpers (nvmarker.py lines 186-230). -/
def renderArgDesc : ArgDesc → List Char
  | ArgDesc.tensor name shape dtype =>
    lbrace :: (qkey "name" ++ renderStrC name ++ commaSp ++
      qkey "type" ++ renderStrC "tensor" ++ commaSp ++
      qkey "shape" ++ renderNatTuple shape ++ commaSp ++
      qkey "dtype" ++ renderStrC dtype ++ [rbrace])
  | ArgDesc.ndarray name shape dtype =>
    lbrace :: (qkey "name" ++ renderStrC name ++ commaSp ++
      qkey "type" ++ renderStrC "ndarray" ++ commaSp ++
      qkey "shape" ++ renderNatTuple shape ++ commaSp ++
      qkey "dtype" ++ renderStrC dtype ++ [rbrace])
  | ArgDesc.seqList name vs =>
    lbrace :: (qkey "name" ++ renderStrC name ++ commaSp ++
      qkey "type" ++ renderStrC "list" ++ commaSp ++
      qkey "value" ++ renderValList vs ++ [rbrace])
  | ArgDesc.seqTuple name vs =>
    lbrace :: (qkey "name" ++ renderStrC name ++ commaSp ++
      qkey "type" ++ renderStrC "tuple" ++ commaSp ++
      qkey "value" ++ renderValTuple vs ++ [rbrace])
  | ArgDesc.scalar name ty v =>
    lbrace :: (qkey "name" ++ renderStrC name ++ commaSp ++
      qkey "type" ++ renderStrC ty ++ commaSp ++
      qkey "value" ++ renderScalarVal v ++ [rbrace])

/-- The `", d"` continuation of the `args` list of descriptors. -/
def renderSepArgs : List ArgDesc → List Char
  | [] => []
  | a :: as => ',' :: ' ' :: (renderArgDesc a ++ renderSepArgs as)

/-- Python `str` of the `args` list of descriptor dictionaries. -/
def renderArgList : List ArgDesc → List Char
  | [] => ['[', ']']
  | a :: as => '[' :: (renderArgDesc a ++ renderSepArgs as ++ [']'])

/-- Python `str(cadena)` for the marker dictionary built by `argMarker`
(nvmarker.py lines 263-272): the textual record pushed as an NVTX range. -/
def renderMarker (m : Marker) : List Char :=
  lbrace :: (qkey "mod" ++ renderStrC m.mod ++ commaSp ++
    qkey "op" ++ renderStrC m.op ++ commaSp ++
    qkey "args" ++ renderArgList m.args ++ [rbrace])

/-- Test for a decimal digit character. -/
def isDigitC (c : Char) : Bool := 48 ≤ c.toNat && c.toNat ≤ 57

/-- Numeric value of a digit character. -/
def digitVal (c : Char) : Nat := c.toNat - 48

/-- Splits a maximal run of leading digit characters from the input. -/
def takeDigits : List Char → List Char × List Char
  | [] => ([], [])
  | c :: cs =>
    if isDigitC c then
      let p := takeDigits cs
      (c :: p.1, p.2)
    else ([], c :: cs)

/-- Accumulates the value of a digit string, most significant first. -/
def digitsToNat (acc : Nat) : List Char → Nat
  | [] => acc
  | c :: cs => digitsToNat (acc * 10 + digitVal c) cs

/-- Evaluation of a decimal natural-number literal at the head of the input. -/
def parseNat (cs : List Char) : Option (Nat × List Char) :=
  match takeDigits cs with
  | ([], _) => none
  | (ds, r) => some (digitsToNat 0 ds, r)

/-- Evaluation of a decimal integer literal at the head of the input. -/
def parseInt (cs : List Char) : Option (Int × List Char) :=
  match cs with
  | [] => none
  | c :: rest =>
    if c = '-' then (parseNat rest).map (fun p => (-(p.1 : Int), p.2))
    else (parseNat (c :: rest)).map (fun p => ((p.1 : Int), p.2))

/-- Consumes the literal character sequence `pre` from the input. -/
def expects (pre : List Char) (cs : List Char) : Option (List Char) :=
  match pre, cs with
  | [], rest => some rest
  | _ :: _, [] => none
  | p :: ps, c :: cs2 => if c = p then expects ps cs2 else none

/-- Consumes one expected character from the input. -/
def expectChar (c : Char) (cs : List Char) : Option (List Char) :=
  match cs with
  | [] => none
  | c2 :: rest => if c2 = c then some rest else none

/-- Takes the characters up to the closing apostrophe of a string literal. -/
def takeTilQuote : List Char → Option (List Char × List Char)
  | [] => none
  | c :: cs =>
    if c = quoteC then some ([], cs)
    else (takeTilQuote cs).map (fun p => (c :: p.1, p.2))

/-- Evaluation of a quoted string literal at the head of the input. -/
def parseStrC (cs : List Char) : Option (String × List Char) :=
  match cs with
  | [] => none
  | c :: rest =>
    if c = quoteC then (takeTilQuote rest).map (fun p => (String.mk p.1, p.2))
    else none

/-- Evaluation of one scalar literal: a string, `True`, `False`, `None` or an
integer. -/
def parseScalarVal (cs : List Char) : Option (ScalarVal × List Char) :=
  match cs with
  | [] => none
  | c :: rest =>
    if c = quoteC then
      (takeTilQuote rest).map (fun p => (ScalarVal.vstr (String.mk p.1), p.2))
    else if c = 'T' then
      (expects ('r' :: 'u' :: 'e' :: []) rest).map (fun r => (ScalarVal.vbool true, r))
    else if c = 'F' then
      (expects ('a' :: 'l' :: 's' :: 'e' :: []) rest).map (fun r => (ScalarVal.vbool false, r))
    else if c = 'N' then
      (expects ('o' :: 'n' :: 'e' :: []) rest).map (fun r => (ScalarVal.vnone, r))
    else
      (parseInt (c :: rest)).map (fun p => (ScalarVal.vint p.1, p.2))

/-- Evaluation of the continuation of a tuple of naturals after its first
element: a close parenthesis, a trailing comma, or `", n"` repeated. -/
def parseNatTupleTail : Nat → List Char → Option (List Nat × List Char)
  | _, [] => none
  | fuel, c :: rest =>
    if c = ')' then some ([], rest)
    else if c = ',' then
      match rest with
      | [] => none
      | r :: rest2 =>
        if r = ')' then some ([], rest2)
        else if r = ' ' then
          match fuel with
          | 0 => none
          | fuel2 + 1 =>
            match parseNat rest2 with
            | none => none
            | some (n, rest3) =>
              match parseNatTupleTail fuel2 rest3 with
              | none => none
              | some (ns, rest4) => some (n :: ns, rest4)
        else none
    else none

/-- Evaluation of a tuple literal of naturals (a captured shape). -/
def parseNatTuple (cs : List Char) : Option (List Nat × List Char) :=
  match cs with
  | [] => none
  | c :: cs2 =>
    if c = '(' then
      match cs2 with
      | [] => none
      | c2 :: cs3 =>
        if c2 = ')' then some ([], cs3)
        else
          match parseNat cs2 with
          | none => none
          | some (n, rest) =>
            match parseNatTupleTail rest.length rest with
            | none => none
            | some (ns, rest2) => some (n :: ns, rest2)
    else none

/-- Evaluation of the continuation of a scalar-value sequence after its first
element, with the given closing bracket. -/
def parseValSeqTail (close : Char) : Nat → List Char → Option (List ScalarVal × List Char)
  | _, [] => none
  | fuel, c :: rest =>
    if c = close then some ([], rest)
    else if c = ',' then
      match rest with
      | [] => none
      | r :: rest2 =>
        if r = close then some ([], rest2)
        else if r = ' ' then
          match fuel with
          | 0 => none
          | fuel2 + 1 =>
            match parseScalarVal rest2 with
            | none => none
            | some (v, rest3) =>
              match parseValSeqTail close fuel2 rest3 with
              | none => none
              | some (vs, rest4) => some (v :: vs, rest4)
        else none
    else none

/-- Evaluation of a list literal of scalar values. -/
def parseValList (cs : List Char) : Option (List ScalarVal × List Char) :=
  match cs with
  | [] => none
  | c :: cs2 =>
    if c = '[' then
      match cs2 with
      | [] => none
      | c2 :: cs3 =>
        if c2 = ']' then some ([], cs3)
        else
          match parseScalarVal cs2 with
          | none => none
          | some (v, rest) =>
            match parseValSeqTail ']' rest.length rest with
            | none => none
            | some (vs, rest2) => some (v :: vs, rest2)
    else none

/-- Evaluation of a tuple literal of scalar values. -/
def parseValTuple (cs : List Char) : Option (List ScalarVal × List Char) :=
  match cs with
  | [] => none
  | c :: cs2 =>
    if c = '(' then
      match cs2 with
      | [] => none
      | c2 :: cs3 =>
        if c2 = ')' then some ([], cs3)
        else
          match parseScalarVal cs2 with
          | none => none
          | some (v, rest) =>
            match parseValSeqTail ')' rest.length rest with
            | none => none
            | some (vs, rest2) => some (v :: vs, rest2)
    else none

/-- Evaluation of one argument-descriptor dictionary literal, following the
schema the producer emits: keys `name` and `type`, then either `shape` and
`dtype` or `value`. -/
def parseArgDesc (cs : List Char) : Option (ArgDesc × List Char) :=
  match expectChar lbrace cs with
  | none => none
  | some cs1 =>
    match expects (qkey "name") cs1 with
    | none => none
    | some cs2 =>
      match parseStrC cs2 with
      | none => none
      | some (name, cs3) =>
        match expects (commaSp ++ qkey "type") cs3 with
        | none => none
        | some cs4 =>
          match parseStrC cs4 with
          | none => none
          | some (ty, cs5) =>
            match expects commaSp cs5 with
            | none => none
            | some cs6 =>
              match expects (qkey "shape") cs6 with
              | some cs7 =>
                match parseNatTuple cs7 with
                | none => none
                | some (shape, cs8) =>
                  match expects (commaSp ++ qkey "dtype") cs8 with
                  | none => none
                  | some cs9 =>
                    match parseStrC cs9 with
                    | none => none
                    | some (dtype, cs10) =>
                      match expectChar rbrace cs10 with
                      | none => none
                      | some cs11 =>
                        if ty = "tensor" then some (ArgDesc.tensor name shape dtype, cs11)
                        else if ty = "ndarray" then some (ArgDesc.ndarray name shape dtype, cs11)
                        else none
              | none =>
                match expects (qkey "value") cs6 with
                | none => none
                | some cs7 =>
                  match cs7 with
                  | [] => none
                  | c2 :: _ =>
                    if c2 = '[' then
                      match parseValList cs7 with
                      | none => none
                      | some (vs, cs8) =>
                        (expectChar rbrace cs8).map (fun r => (ArgDesc.seqList name vs, r))
                    else if c2 = '(' then
                      match parseValTuple cs7 with
                      | none => none
                      | some (vs, cs8) =>
                        (expectChar rbrace cs8).map (fun r => (ArgDesc.seqTuple name vs, r))
                    else
                      match parseScalarVal cs7 with
                      | none => none
                      | some (v, cs8) =>
                        (expectChar rbrace cs8).map (fun r => (ArgDesc.scalar name ty v, r))

/-- Evaluation of the continuation of the descriptor list after its first
element. -/
def parseArgListTail : Nat → List Char → Option (List ArgDesc × List Char)
  | _, [] => none
  | fuel, c :: rest =>
    if c = ']' then some ([], rest)
    else if c = ',' then
      match rest with
      | [] => none
      | r :: rest2 =>
        if r = ']' then some ([], rest2)
        else if r = ' ' then
          match fuel with
          | 0 => none
          | fuel2 + 1 =>
            match parseArgDesc rest2 with
            | none => none
            | some (a, rest3) =>
              match parseArgListTail fuel2 rest3 with
              | none => none
              | some (as, rest4) => some (a :: as, rest4)
        else none
    else none

/-- Evaluation of the `args` list literal of descriptor dictionaries. -/
def parseArgList (cs : List Char) : Option (List ArgDesc × List Char) :=
  match cs with
  | [] => none
  | c :: cs2 =>
    if c = '[' then
      match cs2 with
      | [] => none
      | c2 :: cs3 =>
        if c2 = ']' then some ([], cs3)
        else
          match parseArgDesc cs2 with
          | none => none
          | some (a, rest) =>
            match parseArgListTail rest.length rest with
            | none => none
            | some (as, rest2) => some (a :: as, rest2)
    else none

/-- Structural model of the consumer-side decode `eval(d.argMarker[0])`
(reduction.py lines 26, 89, 144) restricted to the dictionary literals the
producer emits: evaluates the whole textual record to a marker dictionary
with keys `mod`, `op` and `args`. -/
def parseMarker (cs : List Char) : Option Marker :=
  match expectChar lbrace cs with
  | none => none
  | some cs1 =>
    match expects (qkey "mod") cs1 with
    | none => none
    | some cs2 =>
      match parseStrC cs2 with
      | none => none
      | some (mod, cs3) =>
        match expects (commaSp ++ qkey "op") cs3 with
        | none => none
        | some cs4 =>
          match parseStrC cs4 with
          | none => none
          | some (op, cs5) =>
            match expects (commaSp ++ qkey "args") cs5 with
            | none => none
            | some cs6 =>
              match parseArgList cs6 with
              | none => none
              | some (args, cs7) =>
                match expectChar rbrace cs7 with
                | none => none
                | some cs8 =>
                  match cs8 with
                  | [] => some ⟨mod, op, args⟩
                  | _ :: _ => none

/-- Characters that Python `repr` prints verbatim inside a quoted string:
no apostrophe and no backslash (either would be escaped, which the
serialization model does not cover). -/
def safeChars (l : List Char) : Bool :=
  l.all (fun c => decide (c ≠ quoteC) && decide (c ≠ backslashC))

/-- Safety of a string for the serialization model. -/
def safeStr (s : String) : Bool := safeChars s.data

/-- Safety of a scalar value: its string payload, if any, is safe. -/
def ScalarVal.safe : ScalarVal → Bool
  | ScalarVal.vstr s => safeStr s
  | _ => true

/-- Safety of a descriptor: every string it carries is safe. -/
def ArgDesc.safe : ArgDesc → Bool
  | ArgDesc.tensor n _ d => safeStr n && safeStr d
  | ArgDesc.ndarray n _ d => safeStr n && safeStr d
  | ArgDesc.seqList n vs => safeStr n && vs.all ScalarVal.safe
  | ArgDesc.seqTuple n vs => safeStr n && vs.all ScalarVal.safe
  | ArgDesc.scalar n ty v => safeStr n && safeStr ty && v.safe

/-- Safety of a marker: every string it carries is safe. -/
def Marker.safe (m : Marker) : Bool :=
  safeStr m.mod && safeStr m.op && m.args.all ArgDesc.safe

/-- Boundary condition for the greedy number scanner: the following input
does not begin with another digit. -/
def restOkNat : List Char → Bool
  | [] => true
  | c :: _ => !isDigitC c

/-- A captured record for `torch.sum` of a 32-bit float tensor of shape
(4, 8), passed positionally. -/
def sumMarker48 : Marker :=
  ⟨"torch", "sum", [ArgDesc.tensor "" [4, 8] "float32"]⟩

/-- The `Sum` calculator built from `sumMarker48` at `subLevel = 1`. -/
def sumRec48 : Sum :=
  ⟨sumMarker48, "torch", "sum", [ArgDesc.tensor "" [4, 8] "float32"],
   [4, 8], "float32", 1⟩

/-- A captured record for `torch.sum` whose first argument is named and whose
operand arrives as the keyword argument `input`. -/
def sumNamedMarker : Marker :=
  ⟨"torch", "sum",
   [ArgDesc.scalar "dim" "int" (ScalarVal.vint 0),
    ArgDesc.tensor "input" [4, 8] "float32"]⟩

/-- The `Sum` calculator built from `sumNamedMarker` at `subLevel = 0`. -/
def sumNamedRec : Sum :=
  ⟨sumNamedMarker, "torch", "sum",
   [ArgDesc.scalar "dim" "int" (ScalarVal.vint 0),
    ArgDesc.tensor "input" [4, 8] "float32"],
   [4, 8], "float32", 0⟩

/-- A captured record for `torch.mean` of a 32-bit float tensor of shape
(4, 8). -/
def meanMarker48 : Marker :=
  ⟨"torch", "mean", [ArgDesc.tensor "" [4, 8] "float32"]⟩

/-- The `Mean` calculator built from `meanMarker48` at `subLevel = 0`. -/
def meanRec48 : Mean :=
  ⟨meanMarker48, "torch", "mean", [ArgDesc.tensor "" [4, 8] "float32"],
   [4, 8], "float32", "fprop", 0⟩

/-- A captured record for `torch.mean` of a scalar operand. -/
def meanScalarMarker : Marker :=
  ⟨"torch", "mean", [ArgDesc.scalar "" "int" (ScalarVal.vint 5)]⟩

/-- The `Mean` calculator built from `meanScalarMarker` at `subLevel = 0`. -/
def meanScalarRec : Mean :=
  ⟨meanScalarMarker, "torch", "mean",
   [ArgDesc.scalar "" "int" (ScalarVal.vint 5)], [1], "int", "fprop", 0⟩

/-- A captured record for `torch.norm` of a 16-bit float tensor of shape
(10,). -/
def normMarker10 : Marker :=
  ⟨"torch", "norm", [ArgDesc.tensor "" [10] "float16"]⟩

/-- The `Norm` calculator built from `normMarker10` at `subLevel = 0`. -/
def normRec10 : Norm :=
  ⟨normMarker10, "torch", "norm", [ArgDesc.tensor "" [10] "float16"],
   [10], "float16", 0⟩

/-- A captured record for `torch.norm` whose first (and only) argument is a
named tensor. -/
def normMarkerNamed : Marker :=
  ⟨"torch", "norm", [ArgDesc.tensor "input" [4] "float32"]⟩

/-- The `Norm` calculator built from `normMarkerNamed` at `subLevel = 0`. -/
def normRecNamed : Norm :=
  ⟨normMarkerNamed, "torch", "norm", [ArgDesc.tensor "input" [4] "float32"],
   [4], "float32", 0⟩

/-- A captured record for `torch.norm` whose first argument is a scalar. -/
def normScalarMarker : Marker :=
  ⟨"torch", "norm", [ArgDesc.scalar "" "int" (ScalarVal.vint 2)]⟩

/-- Positional arguments of a concrete invocation used to exercise the
producer: one 32-bit float tensor of shape (4, 8). -/
def rtArgs48 : List RtArg := [RtArg.rtensor [4, 8] (RtScalar.rint 0) "float32"]

/-- Keyword arguments of the same concrete invocation: `keepdim=True`. -/
def rtKwargs48 : List (String × RtArg) :=
  [("keepdim", RtArg.rscalar (RtScalar.rbool true))]

/-- C1: for every Sum calculator record, `flops()` equals the element count
(the product of the selected operand's shape) regardless of `subLevel`,
while `bytes()` is suppressed to 0 whenever `subLevel != 0`; in particular
for a 32-bit float tensor of shape (4, 8) at `subLevel = 1`, `bytes() = 0`
and `flops() = 32`. -/
theorem sum_flops_unsuppressed_bytes_suppressed :
    (∀ c : Sum, c.flops = Utility.numElems c.shape) ∧
    (∀ c : Sum, c.sub ≠ 0 → ∀ w, Utility.typeToBytes c.type = some w →
       c.bytes = some 0) ∧
    (Sum.make sumMarker48 1 = Except.ok sumRec48 ∧
     sumRec48.bytes = some 0 ∧ sumRec48.flops = 32) := by
  refine ⟨fun c => rfl, fun c hsub w hw => ?_, rfl, by decide, by decide⟩
  simp only [Sum.bytes, hw, Option.map_some', if_neg hsub]

/-- Witness for C1 at the concrete record `sumRec48` (`subLevel = 1`). -/
theorem sum_flops_unsuppressed_bytes_suppressed_witness :
    sumRec48.sub ≠ 0 ∧ Utility.typeToBytes sumRec48.type = some 4 ∧
    sumRec48.bytes = some 0 :=
  ⟨by decide, rfl,
   sum_flops_unsuppressed_bytes_suppressed.2.1 sumRec48 (by decide) 4 rfl⟩

/-- C3: for every Mean calculator record at `subLevel = 0`,
`flops() = elements() + 1` and `bytes() = elements() * byteWidth(dtype)`;
both are 0 whenever `subLevel != 0`; in particular for a 32-bit float tensor
of shape (4, 8) at `subLevel = 0`, `elements() = 32`, `bytes() = 128`,
`flops() = 33`. -/
theorem mean_metrics_and_suppression :
    (∀ c : Mean, c.sub = 0 →
       c.flops = c.elems + 1 ∧
       ∀ w, Utility.typeToBytes c.type = some w →
         c.bytes = some (c.elems * w)) ∧
    (∀ c : Mean, c.sub ≠ 0 → c.flops = 0 ∧ c.bytes = some 0) ∧
    (Mean.make meanMarker48 "fprop" 0 = Except.ok meanRec48 ∧
     meanRec48.elems = 32 ∧ meanRec48.bytes = some 128 ∧
     meanRec48.flops = 33) := by
  refine ⟨fun c h => ⟨?_, fun w hw => ?_⟩, fun c h => ⟨?_, ?_⟩,
    rfl, by decide, by decide, by decide⟩
  · simp only [Mean.flops, if_pos h]
  · simp only [Mean.bytes, if_pos h, hw, Option.map_some']
  · simp only [Mean.flops, if_neg h]
  · simp only [Mean.bytes, if_neg h]

/-- Witness for C3 at the concrete record `meanRec48` (`subLevel = 0`). -/
theorem mean_metrics_and_suppression_witness :
    meanRec48.sub = 0 ∧ meanRec48.flops = meanRec48.elems + 1 :=
  ⟨rfl, (mean_metrics_and_suppression.1 meanRec48 rfl).1⟩

/-- C4: for every Norm calculator record at `subLevel = 0`,
`flops() = 2 * elements() + 1` and `bytes() = elements() * byteWidth(dtype)`;
both are 0 whenever `subLevel != 0`; in particular for a 16-bit float tensor
of shape (10,) at `subLevel = 0`, `elements() = 10`, `bytes() = 20`,
`flops() = 21`. -/
theorem norm_metrics_and_suppression :
    (∀ c : Norm, c.sub = 0 →
       c.flops = 2 * c.elems + 1 ∧
       ∀ w, Utility.typeToBytes c.type = some w →
         c.bytes = some (c.elems * w)) ∧
    (∀ c : Norm, c.sub ≠ 0 →
       c.flops = 0 ∧
       ∀ w, Utility.typeToBytes c.type = some w → c.bytes = some 0) ∧
    (Norm.make normMarker10 0 = Except.ok normRec10 ∧
     normRec10.elems = 10 ∧ normRec10.bytes = some 20 ∧
     normRec10.flops = 21) := by
  refine ⟨fun c h => ⟨?_, fun w hw => ?_⟩, fun c h => ⟨?_, fun w hw => ?_⟩,
    rfl, by decide, by decide, by decide⟩
  · simp only [Norm.flops, if_pos h]
  · simp only [Norm.bytes, hw, Option.map_some', if_pos h]
  · simp only [Norm.flops, if_neg h]
  · simp only [Norm.bytes, hw, Option.map_some', if_neg h]

/-- Witness for C4 at the concrete record `normRec10` (`subLevel = 0`). -/
theorem norm_metrics_and_suppression_witness :
    normRec10.sub = 0 ∧ normRec10.flops = 2 * normRec10.elems + 1 :=
  ⟨rfl, (norm_metrics_and_suppression.1 normRec10 rfl).1⟩

/-- C5: constructing a calculator variant from a record whose module is not
one it owns, or whose operator name differs from the variant's own operator,
fails with a contract violation rather than producing metrics. -/
theorem constructor_contract_violation :
    ∀ (m : Marker) (dir : String) (sub : Nat),
      ((¬ (m.mod = "torch" ∨ m.mod = "Tensor") ∨ ¬ m.op = "mean") →
         Mean.make m dir sub = Except.error ProfError.contractViolation) ∧
      ((¬ (m.mod = "torch" ∨ m.mod = "Tensor") ∨ ¬ m.op = "sum") →
         Sum.make m sub = Except.error ProfError.contractViolation) ∧
      ((¬ (m.mod = "torch" ∨ m.mod = "Tensor") ∨ ¬ m.op = "norm") →
         Norm.make m sub = Except.error ProfError.contractViolation) := by
  intro m dir sub
  refine ⟨fun h => ?_, fun h => ?_, fun h => ?_⟩
  · unfold Mean.make
    by_cases hm : m.mod = "torch" ∨ m.mod = "Tensor"
    · rcases h with h | h
      · exact absurd hm h
      · rw [if_pos hm, if_neg h]
    · rw [if_neg hm]
  · unfold Sum.make
    by_cases hm : m.mod = "torch" ∨ m.mod = "Tensor"
    · rcases h with h | h
      · exact absurd hm h
      · rw [if_pos hm, if_neg h]
    · rw [if_neg hm]
  · unfold Norm.make
    by_cases hm : m.mod = "torch" ∨ m.mod = "Tensor"
    · rcases h with h | h
      · exact absurd hm h
      · rw [if_pos hm, if_neg h]
    · rw [if_neg hm]

/-- Witness for C5: building the Mean calculator from a record whose operator
is "sum" fails with a contract violation. -/
theorem constructor_contract_violation_witness :
    (¬ (sumMarker48.mod = "torch" ∨ sumMarker48.mod = "Tensor") ∨
       ¬ sumMarker48.op = "mean") ∧
    Mean.make sumMarker48 "fprop" 0 = Except.error ProfError.contractViolation :=
  ⟨Or.inr (by decide),
   (constructor_contract_violation sumMarker48 "fprop" 0).1 (Or.inr (by decide))⟩

/-- C9: the producer's scalar capture emits the tokens "inf", "-inf" and
"nan" for the special numeric values, and no scalar descriptor carries a
shape, so such values never enter shape or element-count arithmetic. -/
theorem special_numeric_value_tokens :
    (∀ nm : String, scalarDesc RtScalar.rinf nm =
       ArgDesc.scalar nm "float" (ScalarVal.vstr "inf")) ∧
    (∀ nm : String, scalarDesc RtScalar.rneginf nm =
       ArgDesc.scalar nm "float" (ScalarVal.vstr "-inf")) ∧
    (∀ nm : String, scalarDesc RtScalar.rnan nm =
       ArgDesc.scalar nm "float" (ScalarVal.vstr "nan")) ∧
    (∀ (v : RtScalar) (nm : String), (scalarDesc v nm).shapeF = none) :=
  ⟨fun _ => rfl, fun _ => rfl, fun _ => rfl, fun _ _ => rfl⟩

/-- C10 counterexample: a Norm record whose first argument is named but
carries a shape and dtype is accepted by the constructor, so construction
does not fail for every Norm record with a named first argument. -/
theorem norm_accepts_named_first_argument :
    normMarkerNamed.args.map ArgDesc.name = ["input"] ∧
    Norm.make normMarkerNamed 0 = Except.ok normRecNamed := by
  exact ⟨rfl, rfl⟩

/-- C10 amended: the Norm constructor selects the first argument descriptor
unconditionally, without filtering named arguments and without a scalar
fallback; construction fails when the argument list is empty or when the
first argument lacks a shape (and hence a dtype), and succeeds on any first
argument carrying shape and dtype, named or not. -/
theorem norm_first_arg_unconditional :
    ∀ (m : Marker) (sub : Nat),
      (m.mod = "torch" ∨ m.mod = "Tensor") → m.op = "norm" →
      (m.args = [] → Norm.make m sub = Except.error ProfError.indexError) ∧
      (∀ i tl, m.args = i :: tl →
        (∀ s t, i.shapeF = some s → i.dtypeF = some t →
           Norm.make m sub = Except.ok ⟨m, m.mod, m.op, m.args, s, t, sub⟩) ∧
        (i.shapeF = none → Norm.make m sub = Except.error ProfError.keyError)) := by
  intro m sub hmod hop
  unfold Norm.make
  rw [if_pos hmod, if_pos hop]
  refine ⟨fun hnil => by rw [hnil], fun i tl hcons => ⟨fun s t hs ht => ?_, fun hs => ?_⟩⟩
  · rw [hcons]
    simp only [hs, ht]
  · rw [hcons]
    simp only [hs]

/-- Witness for C10's amended theorem at the concrete named-argument record
`normMarkerNamed`. -/
theorem norm_first_arg_unconditional_witness :
    (normMarkerNamed.mod = "torch" ∨ normMarkerNamed.mod = "Tensor") ∧
    normMarkerNamed.op = "norm" ∧
    normMarkerNamed.args = ArgDesc.tensor "input" [4] "float32" :: [] ∧
    Norm.make normMarkerNamed 0 =
      Except.ok ⟨normMarkerNamed, normMarkerNamed.mod, normMarkerNamed.op,
        normMarkerNamed.args, [4], "float32", 0⟩ :=
  ⟨Or.inl rfl, rfl, rfl,
   ((norm_first_arg_unconditional normMarkerNamed 0 (Or.inl rfl) rfl).2
      (ArgDesc.tensor "input" [4] "float32") [] rfl).1 [4] "float32" rfl rfl⟩

/-- C7: for every Sum record with at least one argument, the operand is the
first argument when it is positional (empty name), and otherwise the
argument named "input"; `elements()` and `bytes()` are then computed from
that operand's shape and dtype. -/
theorem sum_operand_selection :
    ∀ (m : Marker) (sub : Nat) (c : Sum) (a : ArgDesc) (tl : List ArgDesc),
      m.args = a :: tl → Sum.make m sub = Except.ok c →
      ((a.name = "" → a.shapeF = some c.shape ∧ a.dtypeF = some c.type) ∧
       (¬ a.name = "" →
          ∃ b, (m.args.filter (fun x => x.name == "input")).head? = some b ∧
            b.shapeF = some c.shape ∧ b.dtypeF = some c.type)) ∧
      c.elems = Utility.numElems c.shape ∧
      (∀ w, Utility.typeToBytes c.type = some w →
         c.bytes = some (if c.sub = 0 then c.elems * w else 0)) := by
  intro m sub c a tl hargs h
  unfold Sum.make at h
  split_ifs at h
  case _ =>
    rw [hargs] at h
    by_cases hname : a.name = ""
    · rw [show sumSelect (a :: tl) = some a from by simp [sumSelect, hname]] at h
      dsimp only at h
      cases hsh : a.shapeF with
      | none => rw [hsh] at h; exact Except.noConfusion h
      | some s =>
        rw [hsh] at h
        dsimp only at h
        cases hdt : a.dtypeF with
        | none => rw [hdt] at h; exact Except.noConfusion h
        | some t =>
          rw [hdt] at h
          dsimp only at h
          injection h with h
          subst h
          refine ⟨⟨fun _ => ⟨rfl, rfl⟩, fun hn => absurd hname hn⟩,
            rfl, fun w hw => ?_⟩
          simp only [Sum.bytes, hw, Option.map_some']
    · rw [show sumSelect (a :: tl) =
            ((a :: tl).filter (fun x => x.name == "input")).head? from by
          simp [sumSelect, hname]] at h
      cases hsel : ((a :: tl).filter (fun x => x.name == "input")).head? with
      | none => rw [hsel] at h; exact Except.noConfusion h
      | some b =>
        rw [hsel] at h
        dsimp only at h
        cases hsh : b.shapeF with
        | none => rw [hsh] at h; exact Except.noConfusion h
        | some s =>
          rw [hsh] at h
          dsimp only at h
          cases hdt : b.dtypeF with
          | none => rw [hdt] at h; exact Except.noConfusion h
          | some t =>
            rw [hdt] at h
            dsimp only at h
            injection h with h
            subst h
            refine ⟨⟨fun he => absurd he hname,
              fun _ => ⟨b, ?_, by rw [hsh], by rw [hdt]⟩⟩, rfl, fun w hw => ?_⟩
            · rw [hargs]; exact hsel
            · simp only [Sum.bytes, hw, Option.map_some']

/-- Witness for C7 at the concrete record `sumNamedMarker`, whose first
argument is named and whose operand is the keyword argument "input". -/
theorem sum_operand_selection_witness :
    sumNamedMarker.args =
      ArgDesc.scalar "dim" "int" (ScalarVal.vint 0) ::
        [ArgDesc.tensor "input" [4, 8] "float32"] ∧
    Sum.make sumNamedMarker 0 = Except.ok sumNamedRec ∧
    sumNamedRec.elems = Utility.numElems sumNamedRec.shape :=
  ⟨rfl, rfl,
   (sum_operand_selection sumNamedMarker 0 sumNamedRec
      (ArgDesc.scalar "dim" "int" (ScalarVal.vint 0))
      [ArgDesc.tensor "input" [4, 8] "float32"] rfl rfl).2.1⟩

/-- C8: a Mean record whose selected positional operand has no shape is
treated as an operand of shape (1,), so `elements() = 1`; and the producer
captures a zero-dimensional tensor as a scalar descriptor, which carries no
shape. -/
theorem mean_scalar_operand :
    (∀ (m : Marker) (dir : String) (sub : Nat) (c : Mean)
       (i : ArgDesc) (tl : List ArgDesc),
       m.args.filter (fun x => x.name == "") = i :: tl → i.shapeF = none →
       Mean.make m dir sub = Except.ok c →
       c.shape = [1] ∧ c.elems = 1) ∧
    (∀ (item : RtScalar) (dt nm : String),
       fooArg (RtArg.rtensor [] item dt) nm = [scalarDesc item nm] ∧
       (scalarDesc item nm).shapeF = none) := by
  constructor
  · intro m dir sub c i tl hfilter hsh h
    simp only [Mean.make] at h
    rw [hfilter] at h
    split_ifs at h
    case _ =>
      dsimp only at h
      rw [hsh] at h
      dsimp only at h
      split_ifs at h
      injection h with h
      subst h
      exact ⟨rfl, rfl⟩
  · intro item dt nm
    exact ⟨rfl, rfl⟩

/-- Witness for C8 at the concrete scalar-operand record
`meanScalarMarker`. -/
theorem mean_scalar_operand_witness :
    meanScalarMarker.args.filter (fun x => x.name == "") =
      ArgDesc.scalar "" "int" (ScalarVal.vint 5) :: [] ∧
    (ArgDesc.scalar "" "int" (ScalarVal.vint 5)).shapeF = none ∧
    Mean.make meanScalarMarker "fprop" 0 = Except.ok meanScalarRec ∧
    meanScalarRec.shape = [1] ∧ meanScalarRec.elems = 1 :=
  ⟨rfl, rfl, rfl,
   mean_scalar_operand.1 meanScalarMarker "fprop" 0 meanScalarRec
     (ArgDesc.scalar "" "int" (ScalarVal.vint 5)) [] rfl rfl rfl⟩

theorem expects_append (pre rest : List Char) : expects pre (pre ++ rest) = some rest := by
  induction pre with
  | nil => rfl
  | cons p ps ih => simp [expects, ih]

theorem safeChars_cons {c : Char} {cs : List Char} (h : safeChars (c :: cs) = true) :
    c ≠ quoteC ∧ c ≠ backslashC ∧ safeChars cs = true := by
  simp only [safeChars, List.all_cons, Bool.and_eq_true, decide_eq_true_eq] at h
  exact ⟨h.1.1, h.1.2, h.2⟩

theorem isDigitC_digitChar {n : Nat} (h : n < 10) : isDigitC (digitChar n) = true := by
  interval_cases n <;> decide

theorem digitVal_digitChar {n : Nat} (h : n < 10) : digitVal (digitChar n) = n := by
  interval_cases n <;> decide

theorem digit_ne {c : Char} (d : Char) (h : isDigitC c = true)
    (h2 : isDigitC d = false) : c ≠ d := by
  intro e
  rw [e, h2] at h
  exact Bool.noConfusion h

theorem natChars_digits (n : Nat) : ∀ c ∈ natChars n, isDigitC c = true := by
  induction n using Nat.strong_induction_on with
  | _ n ih =>
    rw [natChars]
    split
    · next h =>
      intro c hc
      rw [List.mem_singleton] at hc
      subst hc
      exact isDigitC_digitChar h
    · next h =>
      intro c hc
      rw [List.mem_append] at hc
      rcases hc with hc | hc
      · exact ih (n / 10) (Nat.div_lt_self (by omega) (by omega)) c hc
      · rw [List.mem_singleton] at hc
        subst hc
        exact isDigitC_digitChar (Nat.mod_lt n (by omega))

theorem natChars_ne_nil (n : Nat) : natChars n ≠ [] := by
  rw [natChars]
  split
  · exact List.cons_ne_nil _ _
  · intro hcontra
    exact absurd (List.append_eq_nil.mp hcontra).2 (by simp)

theorem takeDigits_append (ds rest : List Char) (hd : ∀ c ∈ ds, isDigitC c = true)
    (hr : restOkNat rest = true) : takeDigits (ds ++ rest) = (ds, rest) := by
  induction ds with
  | nil =>
    simp only [List.nil_append]
    cases rest with
    | nil => rfl
    | cons c cs =>
      simp only [restOkNat, Bool.not_eq_true'] at hr
      simp [takeDigits, hr]
  | cons d ds ih =>
    have hd0 : isDigitC d = true := hd d (by simp)
    simp only [List.cons_append, takeDigits, hd0, if_true]
    rw [show ds.append rest = ds ++ rest from rfl, ih (fun c hc => hd c (by simp [hc]))]

theorem digitsToNat_append (xs ys : List Char) (acc : Nat) :
    digitsToNat acc (xs ++ ys) = digitsToNat (digitsToNat acc xs) ys := by
  induction xs generalizing acc with
  | nil => rfl
  | cons c cs ih => exact ih (acc * 10 + digitVal c)

theorem digitsToNat_natChars (n : Nat) :
    ∀ acc, digitsToNat acc (natChars n) = acc * 10 ^ (natChars n).length + n := by
  induction n using Nat.strong_induction_on with
  | _ n ih =>
    intro acc
    rw [natChars]
    split
    · next h =>
      show acc * 10 + digitVal (digitChar n) = acc * 10 ^ 1 + n
      rw [digitVal_digitChar h, pow_one]
    · next h =>
      rw [digitsToNat_append]
      rw [ih (n / 10) (Nat.div_lt_self (by omega) (by omega))]
      show (acc * 10 ^ (natChars (n / 10)).length + n / 10) * 10 +
          digitVal (digitChar (n % 10)) = _
      rw [digitVal_digitChar (Nat.mod_lt n (by omega))]
      rw [List.length_append, List.length_singleton, pow_succ, ← mul_assoc]
      generalize acc * 10 ^ (natChars (n / 10)).length = k
      omega

theorem digitsToNat_natChars_zero (n : Nat) : digitsToNat 0 (natChars n) = n := by
  rw [digitsToNat_natChars n 0]
  simp

theorem parseNat_rt (n : Nat) (rest : List Char) (hr : restOkNat rest = true) :
    parseNat (natChars n ++ rest) = some (n, rest) := by
  obtain ⟨d, ds, hds⟩ := List.exists_cons_of_ne_nil (natChars_ne_nil n)
  unfold parseNat
  rw [takeDigits_append _ _ (natChars_digits n) hr, hds]
  dsimp only
  rw [← hds, digitsToNat_natChars_zero]

theorem natChars_head_digit (n : Nat) :
    ∃ d ds, natChars n = d :: ds ∧ isDigitC d = true := by
  obtain ⟨d, ds, hds⟩ := List.exists_cons_of_ne_nil (natChars_ne_nil n)
  exact ⟨d, ds, hds, natChars_digits n d (by rw [hds]; simp)⟩

theorem parseInt_rt (i : Int) (rest : List Char) (hr : restOkNat rest = true) :
    parseInt (intChars i ++ rest) = some (i, rest) := by
  cases i with
  | ofNat n =>
    obtain ⟨d, ds, hds, hd⟩ := natChars_head_digit n
    show parseInt (natChars n ++ rest) = _
    rw [hds]
    simp only [List.cons_append, parseInt, if_neg (digit_ne '-' hd (by decide))]
    rw [← List.cons_append, ← hds, parseNat_rt n rest hr]
    rfl
  | negSucc n =>
    show parseInt ('-' :: natChars (n + 1) ++ rest) = _
    simp only [List.cons_append, parseInt, if_pos rfl]
    rw [parseNat_rt (n + 1) rest hr]
    simp [Int.negSucc_eq]

theorem takeTilQuote_rt (s : List Char) (rest : List Char) (hs : safeChars s = true) :
    takeTilQuote (s ++ quoteC :: rest) = some (s, rest) := by
  induction s with
  | nil => simp [takeTilQuote]
  | cons c cs ih =>
    obtain ⟨h1, _, h3⟩ := safeChars_cons hs
    simp only [List.cons_append, takeTilQuote, if_neg h1]
    rw [show cs.append (quoteC :: rest) = cs ++ quoteC :: rest from rfl, ih h3]
    rfl

theorem renderStrC_append (s : String) (rest : List Char) :
    renderStrC s ++ rest = quoteC :: (s.data ++ quoteC :: rest) := by
  simp [renderStrC]

theorem parseStrC_rt (s : String) (rest : List Char) (hs : safeStr s = true) :
    parseStrC (renderStrC s ++ rest) = some (s, rest) := by
  rw [renderStrC_append]
  simp only [parseStrC, if_pos rfl]
  rw [takeTilQuote_rt s.data rest hs]
  rfl

theorem parseNatTupleTail_step (fuel : Nat) (X : List Char) :
    parseNatTupleTail (fuel + 1) (',' :: ' ' :: X) =
      match parseNat X with
      | none => none
      | some (n2, rest3) =>
        match parseNatTupleTail fuel rest3 with
        | none => none
        | some (ns2, rest4) => some (n2 :: ns2, rest4) := rfl

theorem parseNatTupleTail_close (fuel : Nat) (rest : List Char) :
    parseNatTupleTail fuel (')' :: rest) = some ([], rest) := by
  unfold parseNatTupleTail
  norm_num

theorem parseNatTupleTail_closeComma (fuel : Nat) (rest : List Char) :
    parseNatTupleTail fuel (',' :: ')' :: rest) = some ([], rest) := by
  unfold parseNatTupleTail
  norm_num
  decide

theorem restOkNat_cons (c : Char) (cs : List Char) (h : isDigitC c = false) :
    restOkNat (c :: cs) = true := by
  simp [restOkNat, h]

theorem restOkNat_sepNats (ns : List Nat) (c : Char) (hc : isDigitC c = false)
    (rest : List Char) : restOkNat (renderSepNats ns ++ c :: rest) = true := by
  cases ns with
  | nil => exact restOkNat_cons c rest hc
  | cons n ns => exact restOkNat_cons ',' _ (by decide)

theorem length_le_sepNats (ns : List Nat) : ns.length ≤ (renderSepNats ns).length := by
  induction ns with
  | nil => simp [renderSepNats]
  | cons n ns ih => simp [renderSepNats]; omega

theorem parseNatTupleTail_rt (ns : List Nat) :
    ∀ (fuel : Nat) (rest : List Char), ns.length ≤ fuel →
      parseNatTupleTail fuel (renderSepNats ns ++ ')' :: rest) = some (ns, rest) := by
  induction ns with
  | nil =>
    intro fuel rest _
    exact parseNatTupleTail_close fuel rest
  | cons n ns ih =>
    intro fuel rest hfuel
    cases fuel with
    | zero => exact absurd hfuel (by simp)
    | succ fuel =>
      have hshape : renderSepNats (n :: ns) ++ ')' :: rest =
          ',' :: ' ' :: (natChars n ++ (renderSepNats ns ++ ')' :: rest)) := by
        simp [renderSepNats]
      rw [hshape, parseNatTupleTail_step,
        parseNat_rt n _ (restOkNat_sepNats ns ')' (by decide) rest)]
      dsimp only
      rw [ih fuel rest (by simp only [List.length_cons] at hfuel; omega)]

theorem parseNatTuple_cons (d : Char) (tl : List Char) (hd1 : ¬ d = ')') :
    parseNatTuple ('(' :: d :: tl) =
      match parseNat (d :: tl) with
      | none => none
      | some (n, r) =>
        match parseNatTupleTail r.length r with
        | none => none
        | some (ns, r2) => some (n :: ns, r2) := by
  unfold parseNatTuple
  norm_num [hd1]

theorem parseNatTuple_rt (ns : List Nat) (rest : List Char) :
    parseNatTuple (renderNatTuple ns ++ rest) = some (ns, rest) := by
  match ns with
  | [] =>
    show parseNatTuple ('(' :: ')' :: rest) = some ([], rest)
    unfold parseNatTuple
    norm_num
  | [n] =>
    obtain ⟨d, ds, hds, hd⟩ := natChars_head_digit n
    have hshape : renderNatTuple [n] ++ rest =
        '(' :: d :: (ds ++ ',' :: ')' :: rest) := by
      simp [renderNatTuple, hds]
    rw [hshape, parseNatTuple_cons d _ (digit_ne ')' hd (by decide))]
    rw [show d :: (ds ++ ',' :: ')' :: rest) = natChars n ++ ',' :: ')' :: rest from by
      rw [hds]; rfl]
    rw [parseNat_rt n _ (restOkNat_cons ',' _ (by decide))]
    dsimp only
    rw [parseNatTupleTail_closeComma]
  | n :: n2 :: ns =>
    obtain ⟨d, ds, hds, hd⟩ := natChars_head_digit n
    have hshape : renderNatTuple (n :: n2 :: ns) ++ rest =
        '(' :: d :: (ds ++ (renderSepNats (n2 :: ns) ++ ')' :: rest)) := by
      simp [renderNatTuple, hds]
    rw [hshape, parseNatTuple_cons d _ (digit_ne ')' hd (by decide))]
    rw [show d :: (ds ++ (renderSepNats (n2 :: ns) ++ ')' :: rest)) =
        natChars n ++ (renderSepNats (n2 :: ns) ++ ')' :: rest) from by
      rw [hds]; rfl]
    rw [parseNat_rt n _ (restOkNat_sepNats (n2 :: ns) ')' (by decide) rest)]
    dsimp only
    rw [parseNatTupleTail_rt (n2 :: ns) _ rest (by
      have h1 := length_le_sepNats (n2 :: ns)
      simp only [List.length_cons] at h1
      simp only [List.length_append, List.length_cons]
      omega)]

theorem renderScalarVal_head (v : ScalarVal) :
    ∃ c cs, renderScalarVal v = c :: cs ∧
      (c = quoteC ∨ c = 'T' ∨ c = 'F' ∨ c = 'N' ∨ c = '-' ∨ isDigitC c = true) := by
  cases v with
  | vint n =>
    cases n with
    | ofNat m =>
      obtain ⟨d, ds, hds, hd⟩ := natChars_head_digit m
      exact ⟨d, ds, hds, Or.inr (Or.inr (Or.inr (Or.inr (Or.inr hd))))⟩
    | negSucc m =>
      exact ⟨'-', natChars (m + 1), rfl,
        Or.inr (Or.inr (Or.inr (Or.inr (Or.inl rfl))))⟩
  | vbool b =>
    cases b with
    | false => exact ⟨'F', _, rfl, Or.inr (Or.inr (Or.inl rfl))⟩
    | true => exact ⟨'T', _, rfl, Or.inr (Or.inl rfl)⟩
  | vstr s => exact ⟨quoteC, _, rfl, Or.inl rfl⟩
  | vnone => exact ⟨'N', _, rfl, Or.inr (Or.inr (Or.inr (Or.inl rfl)))⟩

theorem parseScalarVal_rt (v : ScalarVal) (rest : List Char)
    (hv : ScalarVal.safe v = true) (hr : restOkNat rest = true) :
    parseScalarVal (renderScalarVal v ++ rest) = some (v, rest) := by
  cases v with
  | vint n =>
    cases n with
    | ofNat m =>
      obtain ⟨d, ds, hds, hd⟩ := natChars_head_digit m
      show parseScalarVal (natChars m ++ rest) = _
      rw [hds]
      simp only [List.cons_append, parseScalarVal,
        if_neg (digit_ne quoteC hd (by decide)),
        if_neg (digit_ne 'T' hd (by decide)),
        if_neg (digit_ne 'F' hd (by decide)),
        if_neg (digit_ne 'N' hd (by decide))]
      rw [← List.cons_append, ← hds,
        show natChars m = intChars (Int.ofNat m) from rfl, parseInt_rt _ rest hr]
      rfl
    | negSucc m =>
      show parseScalarVal ('-' :: natChars (m + 1) ++ rest) = _
      simp only [List.cons_append, parseScalarVal,
        if_neg (by decide : ¬('-' : Char) = quoteC),
        if_neg (by decide : ¬('-' : Char) = 'T'),
        if_neg (by decide : ¬('-' : Char) = 'F'),
        if_neg (by decide : ¬('-' : Char) = 'N')]
      rw [← List.cons_append,
        show '-' :: natChars (m + 1) = intChars (Int.negSucc m) from rfl,
        parseInt_rt _ rest hr]
      rfl
  | vbool b =>
    cases b with
    | true =>
      show parseScalarVal ('T' :: ('r' :: 'u' :: 'e' :: rest)) = _
      simp only [parseScalarVal, if_neg (by decide : ¬('T' : Char) = quoteC),
        if_pos rfl]
      rw [show 'r' :: 'u' :: 'e' :: rest = ('r' :: 'u' :: 'e' :: []) ++ rest from rfl,
        expects_append]
      rfl
    | false =>
      show parseScalarVal ('F' :: ('a' :: 'l' :: 's' :: 'e' :: rest)) = _
      simp only [parseScalarVal, if_neg (by decide : ¬('F' : Char) = quoteC),
        if_neg (by decide : ¬('F' : Char) = 'T'), if_pos rfl]
      rw [show 'a' :: 'l' :: 's' :: 'e' :: rest =
            ('a' :: 'l' :: 's' :: 'e' :: []) ++ rest from rfl, expects_append]
      rfl
  | vstr s =>
    show parseScalarVal (renderStrC s ++ rest) = _
    rw [renderStrC_append]
    simp only [parseScalarVal, if_pos rfl]
    rw [takeTilQuote_rt s.data rest hv]
    rfl
  | vnone =>
    show parseScalarVal ('N' :: ('o' :: 'n' :: 'e' :: rest)) = _
    simp only [parseScalarVal, if_neg (by decide : ¬('N' : Char) = quoteC),
      if_neg (by decide : ¬('N' : Char) = 'T'),
      if_neg (by decide : ¬('N' : Char) = 'F'), if_pos rfl]
    rw [show 'o' :: 'n' :: 'e' :: rest = ('o' :: 'n' :: 'e' :: []) ++ rest from rfl,
      expects_append]
    rfl

theorem parseValSeqTail_step (close : Char) (h1 : ¬ (',' : Char) = close)
    (h2 : ¬ (' ' : Char) = close) (fuel : Nat) (X : List Char) :
    parseValSeqTail close (fuel + 1) (',' :: ' ' :: X) =
      match parseScalarVal X with
      | none => none
      | some (v, rest3) =>
        match parseValSeqTail close fuel rest3 with
        | none => none
        | some (vs, rest4) => some (v :: vs, rest4) := by
  conv_lhs => rw [parseValSeqTail.eq_def]
  norm_num [h1, h2]

theorem parseValSeqTail_close (close : Char) (fuel : Nat) (rest : List Char) :
    parseValSeqTail close fuel (close :: rest) = some ([], rest) := by
  conv_lhs => rw [parseValSeqTail.eq_def]
  norm_num

theorem parseValSeqTail_closeComma (close : Char) (h1 : ¬ (',' : Char) = close)
    (fuel : Nat) (rest : List Char) :
    parseValSeqTail close fuel (',' :: close :: rest) = some ([], rest) := by
  conv_lhs => rw [parseValSeqTail.eq_def]
  norm_num [h1]

theorem restOkNat_sepVals (vs : List ScalarVal) (close : Char)
    (h3 : isDigitC close = false) (rest : List Char) :
    restOkNat (renderSepVals vs ++ close :: rest) = true := by
  cases vs with
  | nil => exact restOkNat_cons close rest h3
  | cons v vs => exact restOkNat_cons ',' _ (by decide)

theorem length_le_sepVals (vs : List ScalarVal) :
    vs.length ≤ (renderSepVals vs).length := by
  induction vs with
  | nil => simp [renderSepVals]
  | cons v vs ih => simp [renderSepVals]; omega

theorem parseValSeqTail_rt (close : Char) (h1 : ¬ (',' : Char) = close)
    (h2 : ¬ (' ' : Char) = close) (h3 : isDigitC close = false)
    (vs : List ScalarVal) :
    ∀ (fuel : Nat) (rest : List Char), vs.length ≤ fuel →
      vs.all ScalarVal.safe = true →
      parseValSeqTail close fuel (renderSepVals vs ++ close :: rest) =
        some (vs, rest) := by
  induction vs with
  | nil =>
    intro fuel rest _ _
    exact parseValSeqTail_close close fuel rest
  | cons v vs ih =>
    intro fuel rest hfuel hsafe
    cases fuel with
    | zero => exact absurd hfuel (by simp)
    | succ fuel =>
      simp only [List.all_cons, Bool.and_eq_true] at hsafe
      have hshape : renderSepVals (v :: vs) ++ close :: rest =
          ',' :: ' ' :: (renderScalarVal v ++ (renderSepVals vs ++ close :: rest)) := by
        simp [renderSepVals]
      rw [hshape, parseValSeqTail_step close h1 h2,
        parseScalarVal_rt v _ hsafe.1 (restOkNat_sepVals vs close h3 rest)]
      dsimp only
      rw [ih fuel rest (by simp only [List.length_cons] at hfuel; omega) hsafe.2]

theorem scalar_head_ne (v : ScalarVal) (c2 : Char) (hq : ¬ quoteC = c2)
    (hT : ¬ ('T' : Char) = c2) (hF : ¬ ('F' : Char) = c2)
    (hN : ¬ ('N' : Char) = c2) (hm : ¬ ('-' : Char) = c2)
    (hd : isDigitC c2 = false) :
    ∃ c cs, renderScalarVal v = c :: cs ∧ ¬ c = c2 := by
  obtain ⟨c, cs, hcs, hc⟩ := renderScalarVal_head v
  refine ⟨c, cs, hcs, ?_⟩
  rcases hc with h | h | h | h | h | h
  · rw [h]; exact hq
  · rw [h]; exact hT
  · rw [h]; exact hF
  · rw [h]; exact hN
  · rw [h]; exact hm
  · exact digit_ne c2 h hd

theorem parseValList_cons (c0 : Char) (tl : List Char) (h : ¬ c0 = ']') :
    parseValList ('[' :: c0 :: tl) =
      match parseScalarVal (c0 :: tl) with
      | none => none
      | some (v, r) =>
        match parseValSeqTail ']' r.length r with
        | none => none
        | some (vs, r2) => some (v :: vs, r2) := by
  unfold parseValList
  norm_num [h]

theorem parseValList_rt (vs : List ScalarVal) (rest : List Char)
    (hsafe : vs.all ScalarVal.safe = true) :
    parseValList (renderValList vs ++ rest) = some (vs, rest) := by
  match vs with
  | [] =>
    show parseValList ('[' :: ']' :: rest) = some ([], rest)
    unfold parseValList
    norm_num
  | v :: vs =>
    simp only [List.all_cons, Bool.and_eq_true] at hsafe
    obtain ⟨c0, cs0, hcs, hne⟩ := scalar_head_ne v ']'
      (by decide) (by decide) (by decide) (by decide) (by decide) (by decide)
    have hshape : renderValList (v :: vs) ++ rest =
        '[' :: c0 :: (cs0 ++ (renderSepVals vs ++ ']' :: rest)) := by
      simp [renderValList, hcs]
    rw [hshape, parseValList_cons c0 _ hne]
    rw [show c0 :: (cs0 ++ (renderSepVals vs ++ ']' :: rest)) =
        renderScalarVal v ++ (renderSepVals vs ++ ']' :: rest) from by
      rw [hcs]; rfl]
    rw [parseScalarVal_rt v _ hsafe.1 (restOkNat_sepVals vs ']' (by decide) rest)]
    dsimp only
    rw [parseValSeqTail_rt ']' (by decide) (by decide) (by decide) vs _ rest (by
      have h1 := length_le_sepVals vs
      simp only [List.length_append, List.length_cons]
      omega) hsafe.2]

theorem parseValTuple_cons (c0 : Char) (tl : List Char) (h : ¬ c0 = ')') :
    parseValTuple ('(' :: c0 :: tl) =
      match parseScalarVal (c0 :: tl) with
      | none => none
      | some (v, r) =>
        match parseValSeqTail ')' r.length r with
        | none => none
        | some (vs, r2) => some (v :: vs, r2) := by
  unfold parseValTuple
  norm_num [h]

theorem parseValTuple_rt (vs : List ScalarVal) (rest : List Char)
    (hsafe : vs.all ScalarVal.safe = true) :
    parseValTuple (renderValTuple vs ++ rest) = some (vs, rest) := by
  match vs with
  | [] =>
    show parseValTuple ('(' :: ')' :: rest) = some ([], rest)
    unfold parseValTuple
    norm_num
  | [v] =>
    simp only [List.all_cons, Bool.and_eq_true] at hsafe
    obtain ⟨c0, cs0, hcs, hne⟩ := scalar_head_ne v ')'
      (by decide) (by decide) (by decide) (by decide) (by decide) (by decide)
    have hshape : renderValTuple [v] ++ rest =
        '(' :: c0 :: (cs0 ++ ',' :: ')' :: rest) := by
      simp [renderValTuple, hcs]
    rw [hshape, parseValTuple_cons c0 _ hne]
    rw [show c0 :: (cs0 ++ ',' :: ')' :: rest) =
        renderScalarVal v ++ ',' :: ')' :: rest from by rw [hcs]; rfl]
    rw [parseScalarVal_rt v _ hsafe.1 (restOkNat_cons ',' _ (by decide))]
    dsimp only
    rw [parseValSeqTail_closeComma ')' (by decide)]
  | v :: v2 :: vs =>
    simp only [List.all_cons, Bool.and_eq_true] at hsafe
    obtain ⟨c0, cs0, hcs, hne⟩ := scalar_head_ne v ')'
      (by decide) (by decide) (by decide) (by decide) (by decide) (by decide)
    have hshape : renderValTuple (v :: v2 :: vs) ++ rest =
        '(' :: c0 :: (cs0 ++ (renderSepVals (v2 :: vs) ++ ')' :: rest)) := by
      simp [renderValTuple, hcs]
    rw [hshape, parseValTuple_cons c0 _ hne]
    rw [show c0 :: (cs0 ++ (renderSepVals (v2 :: vs) ++ ')' :: rest)) =
        renderScalarVal v ++ (renderSepVals (v2 :: vs) ++ ')' :: rest) from by
      rw [hcs]; rfl]
    rw [parseScalarVal_rt v _ hsafe.1
      (restOkNat_sepVals (v2 :: vs) ')' (by decide) rest)]
    dsimp only
    rw [parseValSeqTail_rt ')' (by decide) (by decide) (by decide) (v2 :: vs) _ rest (by
      have h1 := length_le_sepVals (v2 :: vs)
      simp only [List.length_cons] at h1
      simp only [List.length_append, List.length_cons]
      omega) (by simp only [List.all_cons, Bool.and_eq_true]; exact hsafe.2)]

theorem expectChar_cons (c : Char) (rest : List Char) :
    expectChar c (c :: rest) = some rest := by
  simp [expectChar]

theorem expects_append2 (a b rest : List Char) :
    expects (a ++ b) (a ++ (b ++ rest)) = some rest := by
  rw [← List.append_assoc]
  exact expects_append (a ++ b) rest

theorem qkey_shape_value (X : List Char) :
    expects (qkey "shape") (qkey "value" ++ X) = none := rfl

theorem renderValList_head (vs : List ScalarVal) :
    ∃ t, renderValList vs = '[' :: t := by
  cases vs with
  | nil => exact ⟨_, rfl⟩
  | cons v vs => exact ⟨_, rfl⟩

theorem renderValTuple_head (vs : List ScalarVal) :
    ∃ t, renderValTuple vs = '(' :: t := by
  match vs with
  | [] => exact ⟨_, rfl⟩
  | [v] => exact ⟨_, rfl⟩
  | v :: v2 :: vs => exact ⟨_, rfl⟩

theorem scalar_head_ne_brackets (v : ScalarVal) :
    ∃ c cs, renderScalarVal v = c :: cs ∧ ¬ c = '[' ∧ ¬ c = '(' := by
  obtain ⟨c, cs, hcs, hc⟩ := renderScalarVal_head v
  refine ⟨c, cs, hcs, ?_, ?_⟩ <;>
    rcases hc with h | h | h | h | h | h <;>
      first
        | (rw [h]; decide)
        | (exact digit_ne _ h (by decide))

theorem parseArgDesc_rt (a : ArgDesc) (rest : List Char)
    (ha : ArgDesc.safe a = true) :
    parseArgDesc (renderArgDesc a ++ rest) = some (a, rest) := by
  cases a with
  | tensor name shape dtype =>
    simp only [ArgDesc.safe, Bool.and_eq_true] at ha
    have hshape : renderArgDesc (ArgDesc.tensor name shape dtype) ++ rest =
        lbrace :: (qkey "name" ++ (renderStrC name ++ ((commaSp ++ qkey "type") ++
          (renderStrC "tensor" ++ (commaSp ++ (qkey "shape" ++ (renderNatTuple shape ++
            ((commaSp ++ qkey "dtype") ++ (renderStrC dtype ++ (rbrace :: rest)))))))))) := by
      simp [renderArgDesc, List.append_assoc]
    rw [hshape]
    unfold parseArgDesc
    rw [expectChar_cons]
    dsimp only
    rw [expects_append]
    dsimp only
    rw [parseStrC_rt name _ ha.1]
    dsimp only
    rw [expects_append]
    dsimp only
    rw [parseStrC_rt "tensor" _ (by decide)]
    dsimp only
    rw [expects_append]
    dsimp only
    rw [expects_append]
    dsimp only
    rw [parseNatTuple_rt shape]
    dsimp only
    rw [expects_append]
    dsimp only
    rw [parseStrC_rt dtype _ ha.2]
    dsimp only
    rw [expectChar_cons]
    dsimp only
    rw [if_pos rfl]
  | ndarray name shape dtype =>
    simp only [ArgDesc.safe, Bool.and_eq_true] at ha
    have hshape : renderArgDesc (ArgDesc.ndarray name shape dtype) ++ rest =
        lbrace :: (qkey "name" ++ (renderStrC name ++ ((commaSp ++ qkey "type") ++
          (renderStrC "ndarray" ++ (commaSp ++ (qkey "shape" ++ (renderNatTuple shape ++
            ((commaSp ++ qkey "dtype") ++ (renderStrC dtype ++ (rbrace :: rest)))))))))) := by
      simp [renderArgDesc, List.append_assoc]
    rw [hshape]
    unfold parseArgDesc
    rw [expectChar_cons]
    dsimp only
    rw [expects_append]
    dsimp only
    rw [parseStrC_rt name _ ha.1]
    dsimp only
    rw [expects_append]
    dsimp only
    rw [parseStrC_rt "ndarray" _ (by decide)]
    dsimp only
    rw [expects_append]
    dsimp only
    rw [expects_append]
    dsimp only
    rw [parseNatTuple_rt shape]
    dsimp only
    rw [expects_append]
    dsimp only
    rw [parseStrC_rt dtype _ ha.2]
    dsimp only
    rw [expectChar_cons]
    dsimp only
    rw [if_neg (by decide), if_pos rfl]
  | seqList name vs =>
    simp only [ArgDesc.safe, Bool.and_eq_true] at ha
    have hshape : renderArgDesc (ArgDesc.seqList name vs) ++ rest =
        lbrace :: (qkey "name" ++ (renderStrC name ++ ((commaSp ++ qkey "type") ++
          (renderStrC "list" ++ (commaSp ++ (qkey "value" ++
            (renderValList vs ++ (rbrace :: rest)))))))) := by
      simp [renderArgDesc, List.append_assoc]
    rw [hshape]
    unfold parseArgDesc
    rw [expectChar_cons]
    dsimp only
    rw [expects_append]
    dsimp only
    rw [parseStrC_rt name _ ha.1]
    dsimp only
    rw [expects_append]
    dsimp only
    rw [parseStrC_rt "list" _ (by decide)]
    dsimp only
    rw [expects_append]
    dsimp only
    rw [qkey_shape_value]
    dsimp only
    rw [expects_append]
    dsimp only
    obtain ⟨t, ht⟩ := renderValList_head vs
    rw [ht, List.cons_append]
    dsimp only
    rw [if_pos rfl]
    rw [show ('[' : Char) :: (t ++ (rbrace :: rest)) =
      renderValList vs ++ (rbrace :: rest) from by rw [ht, List.cons_append]]
    rw [parseValList_rt vs _ ha.2]
    dsimp only
    rw [expectChar_cons]
    rfl
  | seqTuple name vs =>
    simp only [ArgDesc.safe, Bool.and_eq_true] at ha
    have hshape : renderArgDesc (ArgDesc.seqTuple name vs) ++ rest =
        lbrace :: (qkey "name" ++ (renderStrC name ++ ((commaSp ++ qkey "type") ++
          (renderStrC "tuple" ++ (commaSp ++ (qkey "value" ++
            (renderValTuple vs ++ (rbrace :: rest)))))))) := by
      simp [renderArgDesc, List.append_assoc]
    rw [hshape]
    unfold parseArgDesc
    rw [expectChar_cons]
    dsimp only
    rw [expects_append]
    dsimp only
    rw [parseStrC_rt name _ ha.1]
    dsimp only
    rw [expects_append]
    dsimp only
    rw [parseStrC_rt "tuple" _ (by decide)]
    dsimp only
    rw [expects_append]
    dsimp only
    rw [qkey_shape_value]
    dsimp only
    rw [expects_append]
    dsimp only
    obtain ⟨t, ht⟩ := renderValTuple_head vs
    rw [ht, List.cons_append]
    dsimp only
    rw [if_neg (by decide), if_pos rfl]
    rw [show ('(' : Char) :: (t ++ (rbrace :: rest)) =
      renderValTuple vs ++ (rbrace :: rest) from by rw [ht, List.cons_append]]
    rw [parseValTuple_rt vs _ ha.2]
    dsimp only
    rw [expectChar_cons]
    rfl
  | scalar name ty v =>
    simp only [ArgDesc.safe, Bool.and_eq_true] at ha
    have hshape : renderArgDesc (ArgDesc.scalar name ty v) ++ rest =
        lbrace :: (qkey "name" ++ (renderStrC name ++ ((commaSp ++ qkey "type") ++
          (renderStrC ty ++ (commaSp ++ (qkey "value" ++
            (renderScalarVal v ++ (rbrace :: rest)))))))) := by
      simp [renderArgDesc, List.append_assoc]
    rw [hshape]
    unfold parseArgDesc
    rw [expectChar_cons]
    dsimp only
    rw [expects_append]
    dsimp only
    rw [parseStrC_rt name _ ha.1.1]
    dsimp only
    rw [expects_append]
    dsimp only
    rw [parseStrC_rt ty _ ha.1.2]
    dsimp only
    rw [expects_append]
    dsimp only
    rw [qkey_shape_value]
    dsimp only
    rw [expects_append]
    dsimp only
    obtain ⟨c0, cs0, hcs, hne1, hne2⟩ := scalar_head_ne_brackets v
    rw [hcs, List.cons_append]
    dsimp only
    rw [if_neg hne1, if_neg hne2]
    rw [show c0 :: (cs0 ++ (rbrace :: rest)) =
      renderScalarVal v ++ (rbrace :: rest) from by rw [hcs, List.cons_append]]
    rw [parseScalarVal_rt v _ ha.2 (restOkNat_cons rbrace _ (by decide))]
    dsimp only
    rw [expectChar_cons]
    rfl

theorem renderArgDesc_head (a : ArgDesc) : ∃ t, renderArgDesc a = lbrace :: t := by
  cases a with
  | tensor name shape dtype => exact ⟨_, rfl⟩
  | ndarray name shape dtype => exact ⟨_, rfl⟩
  | seqList name vs => exact ⟨_, rfl⟩
  | seqTuple name vs => exact ⟨_, rfl⟩
  | scalar name ty v => exact ⟨_, rfl⟩

theorem parseArgListTail_step (fuel : Nat) (X : List Char) :
    parseArgListTail (fuel + 1) (',' :: ' ' :: X) =
      match parseArgDesc X with
      | none => none
      | some (a, rest3) =>
        match parseArgListTail fuel rest3 with
        | none => none
        | some (as, rest4) => some (a :: as, rest4) := rfl

theorem parseArgListTail_close (fuel : Nat) (rest : List Char) :
    parseArgListTail fuel (']' :: rest) = some ([], rest) := by
  unfold parseArgListTail
  norm_num

theorem length_le_sepArgs (as : List ArgDesc) :
    as.length ≤ (renderSepArgs as).length := by
  induction as with
  | nil => simp [renderSepArgs]
  | cons a as ih => simp [renderSepArgs]; omega

theorem parseArgListTail_rt (as : List ArgDesc) :
    ∀ (fuel : Nat) (rest : List Char), as.length ≤ fuel →
      as.all ArgDesc.safe = true →
      parseArgListTail fuel (renderSepArgs as ++ ']' :: rest) = some (as, rest) := by
  induction as with
  | nil =>
    intro fuel rest _ _
    exact parseArgListTail_close fuel rest
  | cons a as ih =>
    intro fuel rest hfuel hsafe
    cases fuel with
    | zero => exact absurd hfuel (by simp)
    | succ fuel =>
      simp only [List.all_cons, Bool.and_eq_true] at hsafe
      have hshape : renderSepArgs (a :: as) ++ ']' :: rest =
          ',' :: ' ' :: (renderArgDesc a ++ (renderSepArgs as ++ ']' :: rest)) := by
        simp [renderSepArgs]
      rw [hshape, parseArgListTail_step, parseArgDesc_rt a _ hsafe.1]
      dsimp only
      rw [ih fuel rest (by simp only [List.length_cons] at hfuel; omega) hsafe.2]

theorem parseArgList_cons (c0 : Char) (tl : List Char) (h : ¬ c0 = ']') :
    parseArgList ('[' :: c0 :: tl) =
      match parseArgDesc (c0 :: tl) with
      | none => none
      | some (a, r) =>
        match parseArgListTail r.length r with
        | none => none
        | some (as, r2) => some (a :: as, r2) := by
  unfold parseArgList
  norm_num [h]

theorem parseArgList_rt (as : List ArgDesc) (rest : List Char)
    (hsafe : as.all ArgDesc.safe = true) :
    parseArgList (renderArgList as ++ rest) = some (as, rest) := by
  match as with
  | [] =>
    show parseArgList ('[' :: ']' :: rest) = some ([], rest)
    unfold parseArgList
    norm_num
  | a :: as =>
    simp only [List.all_cons, Bool.and_eq_true] at hsafe
    obtain ⟨t, ht⟩ := renderArgDesc_head a
    have hne : ¬ lbrace = ']' := by decide
    have hshape : renderArgList (a :: as) ++ rest =
        '[' :: lbrace :: (t ++ (renderSepArgs as ++ ']' :: rest)) := by
      simp [renderArgList, ht]
    rw [hshape, parseArgList_cons lbrace _ hne]
    rw [show lbrace :: (t ++ (renderSepArgs as ++ ']' :: rest)) =
        renderArgDesc a ++ (renderSepArgs as ++ ']' :: rest) from by
      rw [ht, List.cons_append]]
    rw [parseArgDesc_rt a _ hsafe.1]
    dsimp only
    rw [parseArgListTail_rt as _ rest (by
      have h1 := length_le_sepArgs as
      simp only [List.length_append, List.length_cons]
      omega) hsafe.2]

theorem parseMarker_rt (m : Marker) (hm : Marker.safe m = true) :
    parseMarker (renderMarker m) = some m := by
  simp only [Marker.safe, Bool.and_eq_true] at hm
  have hshape : renderMarker m =
      lbrace :: (qkey "mod" ++ (renderStrC m.mod ++ ((commaSp ++ qkey "op") ++
        (renderStrC m.op ++ ((commaSp ++ qkey "args") ++
          (renderArgList m.args ++ (rbrace :: ([] : List Char)))))))) := by
    simp [renderMarker, List.append_assoc]
  rw [hshape]
  unfold parseMarker
  rw [expectChar_cons]
  dsimp only
  rw [expects_append]
  dsimp only
  rw [parseStrC_rt m.mod _ hm.1.1]
  dsimp only
  rw [expects_append]
  dsimp only
  rw [parseStrC_rt m.op _ hm.1.2]
  dsimp only
  rw [expects_append]
  dsimp only
  rw [parseArgList_rt m.args _ hm.2]
  dsimp only
  rw [expectChar_cons]

/-- C6: for every invocation encoded by the record producer `argMarker`,
decoding the encoded textual record (literal evaluation of the `str(dict)`
output) yields the marker back exactly, so re-encoding preserves the module
name, the operator name, and the order and names of the argument descriptors.
Stated for invocations whose strings are quote- and backslash-free (the
fragment in which Python `repr` prints strings verbatim). -/
theorem decode_reencode_roundtrip :
    ∀ (mod op : String) (args : List RtArg) (kwargs : List (String × RtArg)),
      Marker.safe (argMarker mod op args kwargs) = true →
      parseMarker (renderMarker (argMarker mod op args kwargs)) =
        some (argMarker mod op args kwargs) ∧
      (∀ m' : Marker,
        parseMarker (renderMarker (argMarker mod op args kwargs)) = some m' →
        m'.mod = (argMarker mod op args kwargs).mod ∧
        m'.op = (argMarker mod op args kwargs).op ∧
        m'.args.map ArgDesc.name =
          (argMarker mod op args kwargs).args.map ArgDesc.name ∧
        renderMarker m' = renderMarker (argMarker mod op args kwargs)) := by
  intro mod op args kwargs h
  refine ⟨parseMarker_rt _ h, fun m' hm' => ?_⟩
  rw [parseMarker_rt _ h] at hm'
  injection hm' with hm'
  subst hm'
  exact ⟨rfl, rfl, rfl, rfl⟩

/-- Witness for C6 at a concrete invocation: a positional float32 tensor of
shape (4, 8) and the keyword argument `keepdim=True`. -/
theorem decode_reencode_roundtrip_witness :
    Marker.safe (argMarker "torch" "mean" rtArgs48 rtKwargs48) = true ∧
    parseMarker (renderMarker (argMarker "torch" "mean" rtArgs48 rtKwargs48)) =
      some (argMarker "torch" "mean" rtArgs48 rtKwargs48) :=
  ⟨by decide,
   (decode_reencode_roundtrip "torch" "mean" rtArgs48 rtKwargs48 (by decide)).1⟩

end PyProf
